import Mathlib

set_option maxHeartbeats 1000000

/-!
Verification development for `uniter.py` (`ProjectCollector`): a shallow
embedding of the project-collector script and proofs about it.

The script walks a directory tree, analyses every Python file with `ast`
(imports, functions, classes, docstrings, line count), and produces a
markdown summary report plus a consolidated code dump.

Embedding conventions:
* Python text is modelled as Lean `String` (a sequence of unicode scalar
  values, matching CPython `str` code points for all inputs without
  surrogates).
* `ast.parse` cannot be re-implemented here, so a parsed Python module is
  modelled by the inductive `PyStmt`/`PyModule` below, and each file node
  of the modelled file system carries the outcome of reading and parsing
  it (`Except` values standing for the raised/non-raised exception).
* Machine integers do not occur: all counts are `Nat`.
-/

namespace Uniter

/-- Code-point comparison of strings, as CPython compares `str` values
(lexicographic by code point).  Defined over `List Char` via `Char.toNat`
so that it evaluates inside the kernel. -/
def charListLe : List Char → List Char → Bool
  | [], _ => true
  | _ :: _, [] => false
  | a :: as, b :: bs =>
      if a.toNat < b.toNat then true
      else if b.toNat < a.toNat then false
      else charListLe as bs

/-- String `<=` as CPython orders strings. -/
def pyStrLe (a b : String) : Bool := charListLe a.data b.data

/-! ### `str.splitlines`

CPython's `str.splitlines()` splits at the universal line-break
characters (`\n`, `\r`, `\r\n` counted as one break, plus `\v`, `\f`,
`\x1c`, `\x1d`, `\x1e`, `\x85`, `\u2028`, `\u2029`) and does not produce
a trailing empty line when the text ends with a break. -/

/-- The characters CPython `str.splitlines` treats as line breaks. -/
def isLineBreak (c : Char) : Bool :=
  c = '\n' || c = '\r' || c = '\x0b' || c = '\x0c' ||
  c = '\x1c' || c = '\x1d' || c = '\x1e' || c = '\u0085' ||
  c = '\u2028' || c = '\u2029'

/-- Accumulator-based model of `str.splitlines`: `acc` holds the (reversed)
characters of the line currently being read. -/
def splitlinesAux (acc : List Char) : List Char → List (List Char)
  | [] => if acc.isEmpty then [] else [acc.reverse]
  | '\r' :: '\n' :: rest => acc.reverse :: splitlinesAux [] rest
  | c :: rest =>
      if isLineBreak c then acc.reverse :: splitlinesAux [] rest
      else splitlinesAux (c :: acc) rest

/-- Model of CPython `content.splitlines()`. -/
def splitlines (content : String) : List (List Char) :=
  splitlinesAux [] content.data

/-! ### The modelled Python AST

Only the aspects `analyze_python_file` inspects are modelled: `Import`,
`ImportFrom`, `FunctionDef` and `ClassDef` nodes, and, for every other
statement kind, the list of statements nested below it (so that the
full-tree `ast.walk` can descend through `if`/`while`/`try`/... blocks).
Docstrings are carried as the value `ast.get_docstring` would return
(`none` when the body does not start with a string literal). -/

inductive PyStmt where
  /-- model of `ast.Import` (`import a, b`): the list of imported names. -/
  | imp (names : List String)
  /-- model of `ast.ImportFrom` (`from m import a, b`): `module` is `none`
  for a purely relative import (`from . import x`). -/
  | impFrom (module : Option String) (names : List String)
  /-- model of `ast.FunctionDef`: `args` are the positional parameter
  names (`node.args.args`), `docstring` is `ast.get_docstring node`. -/
  | funcDef (name : String) (args : List String) (docstring : Option String)
      (line : Nat) (body : List PyStmt)
  /-- model of `ast.ClassDef`. -/
  | classDef (name : String) (docstring : Option String) (line : Nat)
      (body : List PyStmt)
  /-- any other statement kind; `sub` are the statements nested below it. -/
  | other (sub : List PyStmt)
deriving Repr

/-- A parsed module as `ast.parse` returns it: `docstring` models
`ast.get_docstring tree`. -/
structure PyModule where
  docstring : Option String
  body : List PyStmt
deriving Repr

/-- The child statements `ast.walk` descends into from a given node. -/
def children : PyStmt → List PyStmt
  | .imp _ => []
  | .impFrom _ _ => []
  | .funcDef _ _ _ _ body => body
  | .classDef _ _ _ body => body
  | .other sub => sub

theorem sizeOf_list_pos {α : Type} [SizeOf α] (l : List α) : 0 < sizeOf l := by
  cases l <;> simp_arith

theorem sizeOf_option_pos {α : Type} [SizeOf α] (o : Option α) : 0 < sizeOf o := by
  cases o <;> simp_arith

theorem sizeOf_children_lt (s : PyStmt) : sizeOf (children s) < sizeOf s := by
  cases s with
  | imp names =>
      have := sizeOf_list_pos names
      simp [children]; omega
  | impFrom m names =>
      have h1 := sizeOf_list_pos names
      have h2 := sizeOf_option_pos m
      simp [children]; omega
  | funcDef name args doc line body =>
      simp [children]
  | classDef name doc line body =>
      simp [children]
  | other sub =>
      simp [children]

/-- Model of `ast.walk` restricted to statements: every statement of the
tree appears exactly when `ast.walk` would yield it.  (CPython's `ast.walk`
yields nodes in breadth-first order; this model enumerates them in
depth-first order.  Every property proved below about the extracted lists
is insensitive to this enumeration order.) -/
def walkList : List PyStmt → List PyStmt
  | [] => []
  | s :: rest => (s :: walkList (children s)) ++ walkList rest
termination_by l => sizeOf l
decreasing_by
  · have := sizeOf_children_lt s
    simp; omega
  · simp

/-! ### `ProjectCollector.analyze_python_file` -/

/-- One entry of `analysis['functions']`. -/
structure FuncInfo where
  name : String
  args : List String
  docstring : Option String
  line : Nat
deriving Repr, DecidableEq

/-- One entry of `analysis['classes']`. -/
structure ClassInfo where
  name : String
  methods : List String
  docstring : Option String
  line : Nat
deriving Repr, DecidableEq

/-- The analysis dictionary built for a file that parses. -/
structure Analysis where
  imports : List String
  functions : List FuncInfo
  classes : List ClassInfo
  docstring : Option String
  lines : Nat
deriving Repr, DecidableEq

/-- Model of `[n.name for n in node.body if isinstance(n, ast.FunctionDef)]`. -/
def methodNames (body : List PyStmt) : List String :=
  body.filterMap fun s =>
    match s with
    | .funcDef n _ _ _ _ => some n
    | _ => none

/-- One iteration of the `for node in ast.walk(tree)` loop: the
`if`/`elif` chain appending to the accumulated analysis dictionary.
`if node.module:` is CPython truthiness: `None` and the empty string are
both falsy. -/
def visit (a : Analysis) (node : PyStmt) : Analysis :=
  match node with
  | .imp names => { a with imports := a.imports ++ names }
  | .impFrom module names =>
      match module with
      | some m =>
          if m = "" then a
          else { a with imports :=
            a.imports ++ [m ++ "." ++ String.intercalate ", " names] }
      | none => a
  | .funcDef name args doc line _ =>
      { a with functions := a.functions ++ [⟨name, args, doc, line⟩] }
  | .classDef name doc line body =>
      { a with classes := a.classes ++ [⟨name, methodNames body, doc, line⟩] }
  | .other _ => a

/-- The analysis of a parsed module together with its raw text: the
initial dictionary (docstring, line count) refined by the walk loop. -/
def analyzeTree (content : String) (tree : PyModule) : Analysis :=
  (walkList tree.body).foldl visit
    { imports := []
      functions := []
      classes := []
      docstring := tree.docstring
      lines := (splitlines content).length }

/-- A file of the modelled file system.  `read` is the outcome of
`open(filepath, encoding='utf-8').read()` (`Except.error` models the
raised `OSError`/`UnicodeDecodeError`), and `parse` the outcome of
`ast.parse` on that content (`Except.error` models the `SyntaxError`).
The snapshot is fixed: every read of the file during one run sees the
same outcome. -/
structure FileNode where
  name : String
  size : Nat
  read : Except String String
  parse : Except String PyModule

/-- Model of `ProjectCollector.analyze_python_file`: any exception from
reading or parsing is caught and returned as the error dictionary
`{'error': str(e)}`; otherwise the analysis dictionary is returned. -/
def analyze_python_file (f : FileNode) : Except String Analysis :=
  match f.read with
  | .error e => .error e
  | .ok content =>
      match f.parse with
      | .error e => .error e
      | .ok tree => .ok (analyzeTree content tree)

/-! ### Characterisations of the walk loop -/

/-- The import strings a single walked node appends. -/
def importStrings : PyStmt → List String
  | .imp names => names
  | .impFrom module names =>
      match module with
      | some m =>
          if m = "" then [] else [m ++ "." ++ String.intercalate ", " names]
      | none => []
  | _ => []

/-- The function entry a single walked node appends, if any. -/
def funcEntry : PyStmt → Option FuncInfo
  | .funcDef name args doc line _ => some ⟨name, args, doc, line⟩
  | _ => none

/-- The class entry a single walked node appends, if any. -/
def classEntry : PyStmt → Option ClassInfo
  | .classDef name doc line body => some ⟨name, methodNames body, doc, line⟩
  | _ => none

theorem foldl_visit_imports (l : List PyStmt) (a : Analysis) :
    (l.foldl visit a).imports = a.imports ++ l.flatMap importStrings := by
  induction l generalizing a with
  | nil => simp
  | cons s rest ih =>
      simp only [List.foldl_cons, List.flatMap_cons, ih]
      cases s with
      | imp names => simp [visit, importStrings]
      | impFrom module names =>
          cases module with
          | none => simp [visit, importStrings]
          | some m =>
              by_cases hm : m = "" <;> simp [visit, importStrings, hm]
      | funcDef name args doc line body => simp [visit, importStrings]
      | classDef name doc line body => simp [visit, importStrings]
      | other sub => simp [visit, importStrings]

theorem foldl_visit_functions (l : List PyStmt) (a : Analysis) :
    (l.foldl visit a).functions = a.functions ++ l.filterMap funcEntry := by
  induction l generalizing a with
  | nil => simp
  | cons s rest ih =>
      simp only [List.foldl_cons, List.filterMap_cons, ih]
      cases s with
      | imp names => simp [visit, funcEntry]
      | impFrom module names =>
          cases module with
          | none => simp [visit, funcEntry]
          | some m =>
              by_cases hm : m = "" <;> simp [visit, funcEntry, hm]
      | funcDef name args doc line body => simp [visit, funcEntry]
      | classDef name doc line body => simp [visit, funcEntry]
      | other sub => simp [visit, funcEntry]

theorem foldl_visit_classes (l : List PyStmt) (a : Analysis) :
    (l.foldl visit a).classes = a.classes ++ l.filterMap classEntry := by
  induction l generalizing a with
  | nil => simp
  | cons s rest ih =>
      simp only [List.foldl_cons, List.filterMap_cons, ih]
      cases s with
      | imp names => simp [visit, classEntry]
      | impFrom module names =>
          cases module with
          | none => simp [visit, classEntry]
          | some m =>
              by_cases hm : m = "" <;> simp [visit, classEntry, hm]
      | funcDef name args doc line body => simp [visit, classEntry]
      | classDef name doc line body => simp [visit, classEntry]
      | other sub => simp [visit, classEntry]

theorem foldl_visit_docstring (l : List PyStmt) (a : Analysis) :
    (l.foldl visit a).docstring = a.docstring := by
  induction l generalizing a with
  | nil => simp
  | cons s rest ih =>
      simp only [List.foldl_cons, ih]
      cases s with
      | imp names => simp [visit]
      | impFrom module names =>
          cases module with
          | none => simp [visit]
          | some m => by_cases hm : m = "" <;> simp [visit, hm]
      | funcDef name args doc line body => simp [visit]
      | classDef name doc line body => simp [visit]
      | other sub => simp [visit]

theorem foldl_visit_lines (l : List PyStmt) (a : Analysis) :
    (l.foldl visit a).lines = a.lines := by
  induction l generalizing a with
  | nil => simp
  | cons s rest ih =>
      simp only [List.foldl_cons, ih]
      cases s with
      | imp names => simp [visit]
      | impFrom module names =>
          cases module with
          | none => simp [visit]
          | some m => by_cases hm : m = "" <;> simp [visit, hm]
      | funcDef name args doc line body => simp [visit]
      | classDef name doc line body => simp [visit]
      | other sub => simp [visit]

theorem analyzeTree_imports (content : String) (tree : PyModule) :
    (analyzeTree content tree).imports =
      (walkList tree.body).flatMap importStrings := by
  simp [analyzeTree, foldl_visit_imports]

theorem analyzeTree_functions (content : String) (tree : PyModule) :
    (analyzeTree content tree).functions =
      (walkList tree.body).filterMap funcEntry := by
  simp [analyzeTree, foldl_visit_functions]

theorem analyzeTree_classes (content : String) (tree : PyModule) :
    (analyzeTree content tree).classes =
      (walkList tree.body).filterMap classEntry := by
  simp [analyzeTree, foldl_visit_classes]

theorem analyzeTree_lines (content : String) (tree : PyModule) :
    (analyzeTree content tree).lines = (splitlines content).length := by
  simp [analyzeTree, foldl_visit_lines]

/-! ### The modelled file system and `ProjectCollector.collect_files`

A directory's contents are a list of entries in the order `os.scandir`
returns them (`os.walk` preserves that order).  `os.walk` is top-down:
for each visited directory the loop body records its matching files,
prunes excluded directory names in place (`dirs[:] = ...`), and then
descends into the surviving sub-directories in order. -/

inductive Entry where
  | file (f : FileNode)
  | dir (name : String) (entries : List Entry)

/-- Model of `pathlib.PurePath.suffix`: the part of the name from the
last dot on, unless that dot is the first or the last character. -/
def rfindIdx (c : Char) : List Char → Option Nat
  | [] => none
  | a :: rest =>
      match rfindIdx c rest with
      | some i => some (i + 1)
      | none => if a = c then some 0 else none

/-- `Path(name).suffix`. -/
def pathSuffix (name : String) : String :=
  match rfindIdx '.' name.data with
  | some i =>
      if 0 < i ∧ i < name.data.length - 1 then ⟨name.data.drop i⟩ else ""
  | none => ""

/-- One element of the `files_info` list: the dictionary built for an
enumerated file.  `parts` and `node` are model bookkeeping: `parts` are
the components whose `"/"`-join is `path` (`str(rel_path)`), and `node`
is the underlying snapshot file, used when the consolidation step
re-opens `self.root_dir / file_info['path']`. -/
structure FileInfo where
  path : String
  parts : List String
  size : Nat
  extension : String
  analysis : Option (Except String Analysis)
  node : FileNode

/-- The record `collect_files` appends for one file of a visited
directory, when its suffix is in the extension list. -/
def mkRecord (rel : List String) (f : FileNode) : FileInfo :=
  { path := String.intercalate "/" (rel ++ [f.name])
    parts := rel ++ [f.name]
    size := f.size
    extension := pathSuffix f.name
    analysis :=
      if pathSuffix f.name = ".py" then some (analyze_python_file f) else none
    node := f }

/-- The body of `for file in files:` for one candidate file. -/
def fileRecord (exts : List String) (rel : List String) (f : FileNode) :
    Option FileInfo :=
  if pathSuffix f.name ∈ exts then some (mkRecord rel f) else none

/-- The records contributed by the files of the currently visited
directory, in order. -/
def collectHere (exts : List String) (rel : List String) :
    List Entry → List FileInfo
  | [] => []
  | .file f :: rest =>
      (fileRecord exts rel f).toList ++ collectHere exts rel rest
  | .dir _ _ :: rest => collectHere exts rel rest

mutual

/-- Model of `ProjectCollector.collect_files` on the entries of one
directory whose path relative to the root is `rel`: the records of this
directory's own files, followed by the records collected below each
non-excluded sub-directory in order. -/
def collect_files (excl exts : List String) (rel : List String)
    (entries : List Entry) : List FileInfo :=
  collectHere exts rel entries ++ collectSub excl exts rel entries
termination_by 2 * sizeOf entries + 1
decreasing_by all_goals first | (simp; omega) | simp | omega

/-- The records contributed below the sub-directories of the currently
visited directory: a sub-directory whose name is in `excl` is pruned
before descent and never visited. -/
def collectSub (excl exts : List String) (rel : List String) :
    List Entry → List FileInfo
  | [] => []
  | .file _ :: rest => collectSub excl exts rel rest
  | .dir n sub :: rest =>
      (if n ∈ excl then []
       else collect_files excl exts (rel ++ [n]) sub) ++
      collectSub excl exts rel rest
termination_by l => 2 * sizeOf l
decreasing_by all_goals first | (simp; omega) | simp | omega

end

/-- Every file occurrence of a subtree, tagged with the list of
directory names leading to it (spec-side enumeration, no pruning and no
extension filter). -/
def allFiles : List Entry → List (List String × FileNode)
  | [] => []
  | .file f :: rest => ([], f) :: allFiles rest
  | .dir n sub :: rest =>
      ((allFiles sub).map fun p => (n :: p.1, p.2)) ++ allFiles rest
termination_by l => sizeOf l
decreasing_by all_goals first | (simp; omega) | simp | omega

/-- Spec-side record for one enumerated file occurrence: produced exactly
when no directory on the way down is excluded and the extension is in the
allow-list. -/
def recordOf (excl exts : List String) (rel : List String)
    (pf : List String × FileNode) : Option FileInfo :=
  if (∀ d ∈ pf.1, d ∉ excl) ∧ pathSuffix pf.2.name ∈ exts
  then some (mkRecord (rel ++ pf.1) pf.2) else none

theorem recordOf_nil (excl exts rel : List String) (f : FileNode) :
    recordOf excl exts rel ([], f) = fileRecord exts rel f := by
  simp [recordOf, fileRecord]

theorem recordOf_cons (excl exts rel : List String) (n : String)
    (p : List String × FileNode) :
    recordOf excl exts rel (n :: p.1, p.2) =
      if n ∈ excl then none else recordOf excl exts (rel ++ [n]) p := by
  by_cases hn : n ∈ excl
  · simp [recordOf, hn]
  · by_cases hc : (∀ d ∈ p.1, d ∉ excl) ∧ pathSuffix p.2.name ∈ exts
    · have hcc : (∀ d ∈ n :: p.1, d ∉ excl) ∧ pathSuffix p.2.name ∈ exts := by
        refine ⟨fun d hd => ?_, hc.2⟩
        rcases List.mem_cons.mp hd with rfl | hd'
        · exact hn
        · exact hc.1 d hd'
      simp [recordOf, hn, hc, hcc]
    · have hcc : ¬ ((∀ d ∈ n :: p.1, d ∉ excl) ∧ pathSuffix p.2.name ∈ exts) := by
        rintro ⟨hall, hext⟩
        exact hc ⟨fun d hd => hall d (List.mem_cons_of_mem n hd), hext⟩
      simp [recordOf, hn, hc, hcc]

theorem filterMap_const_none {α β : Type} (l : List α) :
    l.filterMap (fun _ => (none : Option β)) = [] := by
  induction l <;> simp_all

theorem collect_files_key (excl exts : List String) :
    ∀ (k : Nat) (rel : List String) (entries : List Entry),
      sizeOf entries ≤ k →
      List.Perm (collect_files excl exts rel entries)
        ((allFiles entries).filterMap (recordOf excl exts rel)) := by
  intro k
  induction k with
  | zero =>
      intro rel entries h
      cases entries with
      | nil => simp [collect_files, collectHere, collectSub, allFiles]
      | cons e rest => simp at h
  | succ k ih =>
      intro rel entries h
      match entries with
      | [] => simp [collect_files, collectHere, collectSub, allFiles]
      | .file f :: rest =>
          have hrest : sizeOf rest ≤ k := by simp at h; omega
          have hfold : collectHere exts rel rest ++ collectSub excl exts rel rest
              = collect_files excl exts rel rest := by
            rw [collect_files]
          rw [collect_files, collectHere, collectSub, allFiles]
          rw [List.append_assoc, hfold]
          rw [List.filterMap_cons, recordOf_nil]
          cases hfr : fileRecord exts rel f with
          | none => simpa [hfr] using ih rel rest hrest
          | some r => simpa [hfr] using (ih rel rest hrest).cons r
      | .dir n sub :: rest =>
          have hrest : sizeOf rest ≤ k := by simp at h; omega
          have hsub : sizeOf sub ≤ k := by simp at h; omega
          have hfold : collectHere exts rel rest ++ collectSub excl exts rel rest
              = collect_files excl exts rel rest := by
            rw [collect_files]
          rw [collect_files, collectHere, collectSub, allFiles]
          rw [List.filterMap_append, List.filterMap_map]
          simp only [Function.comp_def]
          have hmap : ((allFiles sub).filterMap
                (fun p => recordOf excl exts rel (n :: p.1, p.2)))
              = if n ∈ excl then []
                else (allFiles sub).filterMap (recordOf excl exts (rel ++ [n])) := by
            by_cases hn : n ∈ excl
            · simp only [hn, if_pos]
              have : ∀ p : List String × FileNode,
                  recordOf excl exts rel (n :: p.1, p.2) = none := by
                intro p; rw [recordOf_cons]; simp [hn]
              calc (allFiles sub).filterMap
                    (fun p => recordOf excl exts rel (n :: p.1, p.2))
                  = (allFiles sub).filterMap (fun _ => none) := by
                    apply List.filterMap_congr; intro p _; exact this p
                _ = [] := filterMap_const_none _
            · simp only [hn, if_neg, not_false_iff]
              apply List.filterMap_congr; intro p _
              rw [recordOf_cons]; simp [hn]
          rw [hmap]
          by_cases hn : n ∈ excl
          · simp only [hn, if_pos, List.nil_append]
            rw [hfold]
            exact ih rel rest hrest
          · simp only [hn, if_neg, not_false_iff]
            have hstep : List.Perm
                (collectHere exts rel rest ++
                  (collect_files excl exts (rel ++ [n]) sub ++
                    collectSub excl exts rel rest))
                (collect_files excl exts (rel ++ [n]) sub ++
                  collect_files excl exts rel rest) := by
              rw [← hfold, ← List.append_assoc, ← List.append_assoc]
              exact List.Perm.append_right _ List.perm_append_comm
            exact hstep.trans
              ((ih (rel ++ [n]) sub hsub).append (ih rel rest hrest))

/-! ### `generate_tree_structure` and `print_tree`

The tree is an insertion-ordered mapping from name to `'file'` or a
sub-mapping.  During the top-down walk each visited directory first adds
its non-excluded files, and its sub-directories are inserted later when
they are themselves visited, so at every level the files of a directory
precede its sub-directories, each sub-tree fully built in visit order.
Pruned directory names are never visited and never inserted; a visited
directory is inserted even when it ends up empty. -/

inductive TreeNode where
  | file
  | dir (entries : List (String × TreeNode))

/-- Model of `any(file.endswith(ext.replace('*', '')) for ext in
self.exclude_files)`. -/
def matchesExcludePattern (patterns : List String) (name : String) : Bool :=
  patterns.any fun p => name.endsWith (p.replace "*" "")

/-- The `'file'` insertions made while the current directory is visited. -/
def treeFiles (exclF : List String) : List Entry → List (String × TreeNode)
  | [] => []
  | .file f :: rest =>
      (if matchesExcludePattern exclF f.name then []
       else [(f.name, TreeNode.file)]) ++ treeFiles exclF rest
  | .dir _ _ :: rest => treeFiles exclF rest

mutual

/-- Model of `ProjectCollector.generate_tree_structure` restricted to the
sub-tree of one visited directory. -/
def generate_tree_structure (exclD exclF : List String)
    (entries : List Entry) : List (String × TreeNode) :=
  treeFiles exclF entries ++ treeDirs exclD exclF entries
termination_by 2 * sizeOf entries + 1
decreasing_by all_goals first | (simp; omega) | simp | omega

/-- The sub-mapping insertions made when the walk later visits each
non-pruned sub-directory. -/
def treeDirs (exclD exclF : List String) :
    List Entry → List (String × TreeNode)
  | [] => []
  | .file _ :: rest => treeDirs exclD exclF rest
  | .dir n sub :: rest =>
      (if n ∈ exclD then []
       else [(n, TreeNode.dir (generate_tree_structure exclD exclF sub))]) ++
      treeDirs exclD exclF rest
termination_by l => 2 * sizeOf l
decreasing_by all_goals first | (simp; omega) | simp | omega

end

/-- Connector used by `print_tree` for an item, by last-child detection. -/
def connFor (isLast : Bool) : String := if isLast then "└── " else "├── "

/-- Indentation block accumulated below an item. -/
def indentFor (isLast : Bool) : String := if isLast then "    " else "│   "

/-- Model of `ProjectCollector.print_tree`: the text printed for the
items of one level, given the accumulated indentation `pre`. -/
def print_tree (pre : String) : List (String × TreeNode) → String
  | [] => ""
  | (name, TreeNode.file) :: rest =>
      pre ++ connFor rest.isEmpty ++ name ++ "\n" ++ print_tree pre rest
  | (name, TreeNode.dir ch) :: rest =>
      pre ++ connFor rest.isEmpty ++ name ++ "/\n" ++
      print_tree (pre ++ indentFor rest.isEmpty) ch ++
      print_tree pre rest
termination_by l => sizeOf l
decreasing_by all_goals first | (simp; omega) | simp | omega

/-! ### `generate_summary_report` -/

/-- Default `exclude_dirs` of the constructor. -/
def defaultExcludeDirs : List String :=
  ["__pycache__", ".git", ".venv", "venv", "node_modules", ".idea"]

/-- Default `exclude_files` of the constructor. -/
def defaultExcludeFiles : List String := ["*.pyc", "*.pyo", ".DS_Store"]

/-- Default extensions of `collect_files`. -/
def defaultExtensions : List String :=
  [".py", ".md", ".txt", ".yml", ".yaml", ".json"]

/-- `[f for f in files_info if f['extension'] == '.py']`. -/
def pythonFiles (files : List FileInfo) : List FileInfo :=
  files.filter fun f => f.extension == ".py"

/-- `f.get('analysis', {}).get('lines', 0)`: the error dictionary has no
`'lines'` key, so an unparsable file contributes 0. -/
def linesOfInfo (f : FileInfo) : Nat :=
  match f.analysis with
  | some (.ok a) => a.lines
  | _ => 0

/-- A function entry of `all_functions`: the per-file entry with the
`'file'` key added. -/
structure ReportFunc where
  info : FuncInfo
  file : String
deriving Repr, DecidableEq

/-- A class entry of `all_classes`. -/
structure ReportClass where
  info : ClassInfo
  file : String
deriving Repr, DecidableEq

/-- `all_functions`: only analyses holding a `'functions'` key (i.e.
successful ones) contribute. -/
def allFunctions (files : List FileInfo) : List ReportFunc :=
  (pythonFiles files).flatMap fun f =>
    match f.analysis with
    | some (.ok a) => a.functions.map fun fn => ⟨fn, f.path⟩
    | _ => []

/-- `all_classes`. -/
def allClasses (files : List FileInfo) : List ReportClass :=
  (pythonFiles files).flatMap fun f =>
    match f.analysis with
    | some (.ok a) => a.classes.map fun c => ⟨c, f.path⟩
    | _ => []

/-- The import strings successively added to the `all_imports` set, in
insertion order with duplicates. -/
def allImportStrings (files : List FileInfo) : List String :=
  (pythonFiles files).flatMap fun f =>
    match f.analysis with
    | some (.ok a) => a.imports
    | _ => []

/-- Python's stable `sorted(..., key=lambda x: x['name'])` for classes. -/
def sortClasses (cls : List ReportClass) : List ReportClass :=
  cls.mergeSort fun a b => pyStrLe a.info.name b.info.name

/-- Python's stable `sorted(..., key=lambda x: x['name'])` for functions. -/
def sortFuncs (fns : List ReportFunc) : List ReportFunc :=
  fns.mergeSort fun a b => pyStrLe a.info.name b.info.name

/-- `sorted(all_imports)`: the distinct import strings in sorted order. -/
def sortedImports (imps : List String) : List String :=
  imps.eraseDups.mergeSort pyStrLe

/-- Model of the slice `d[:100]`: CPython slices `str` by code point. -/
def pySlice100 (d : String) : String := ⟨d.data.take 100⟩

/-- The two lines rendered for one class of the classes section:
`if cls['docstring']:` is CPython truthiness, so `None` and the empty
string both suppress the docstring line. -/
def classItem (c : ReportClass) : String :=
  "- **" ++ c.info.name ++ "** (" ++ c.file ++ ")\n" ++
  (match c.info.docstring with
   | some d => if d = "" then "" else "  - " ++ pySlice100 d ++ "...\n"
   | none => "") ++
  (if c.info.methods.isEmpty then ""
   else "  - Методы: " ++ String.intercalate ", " c.info.methods ++ "\n")

/-- The lines rendered for one function of the functions section. -/
def funcItem (f : ReportFunc) : String :=
  "- **" ++ f.info.name ++ "()** (" ++ f.file ++ ")\n" ++
  (match f.info.docstring with
   | some d => if d = "" then "" else "  - " ++ pySlice100 d ++ "...\n"
   | none => "") ++
  (if f.info.args.isEmpty then ""
   else "  - Аргументы: " ++ String.intercalate ", " f.info.args ++ "\n")

/-- The classes section: skipped entirely when `all_classes` is empty
(`if all_classes:`), otherwise every class sorted by name. -/
def classesSection (cls : List ReportClass) : String :=
  if cls.isEmpty then ""
  else "## Основные классы\n" ++
    String.join ((sortClasses cls).map classItem) ++ "\n"

/-- The functions section: skipped when `all_functions` is empty,
otherwise the first 20 of the name-sorted list (`sorted(...)[:20]`). -/
def functionsSection (fns : List ReportFunc) : String :=
  if fns.isEmpty then ""
  else "## Основные функции\n" ++
    String.join (((sortFuncs fns).take 20).map funcItem) ++ "\n"

/-- The imports section: skipped when the `all_imports` set is empty,
otherwise the first 15 of `sorted(all_imports)`. -/
def importsSection (imps : List String) : String :=
  if imps.eraseDups.isEmpty then ""
  else "## Основные зависимости\n" ++
    String.join (((sortedImports imps).take 15).map fun i => "- " ++ i ++ "\n") ++
    "\n"

/-- Everything of the report after the timestamp: the f-string
interpolates the timestamp once, right after `"Дата генерации: "`, and
nothing after it depends on the clock. -/
def report_body (rootName : String) (exclD exclF : List String)
    (entries : List Entry) : String :=
  let files_info := collect_files exclD defaultExtensions [] entries
  let tree := generate_tree_structure exclD exclF entries
  let pys := pythonFiles files_info
  let fns := allFunctions files_info
  let cls := allClasses files_info
  let imps := allImportStrings files_info
  "\n\n## Общая статистика\n- Всего файлов: " ++ toString files_info.length ++
  "\n- Python файлов: " ++ toString pys.length ++
  "\n- Строк кода: " ++ toString (pys.map linesOfInfo).sum ++
  "\n- Функций: " ++ toString fns.length ++
  "\n- Классов: " ++ toString cls.length ++
  "\n- Уникальных импортов: " ++ toString imps.eraseDups.length ++
  "\n\n## Структура проекта\n```\n" ++ rootName ++ "/\n" ++
  print_tree "" tree ++ "```\n\n" ++
  classesSection cls ++ functionsSection fns ++ importsSection imps

/-- Model of `ProjectCollector.generate_summary_report`: the returned
report string (also written verbatim to the output file).  `now` is the
formatted `datetime.now()` timestamp, `rootName` is
`self.root_dir.name`. -/
def generate_summary_report (now rootName : String)
    (exclD exclF : List String) (entries : List Entry) : String :=
  "# Отчет по проекту\nДата генерации: " ++ now ++
    report_body rootName exclD exclF entries

/-! ### `create_consolidated_code` -/

/-- `f"# {'=' * 50}\n"`. -/
def separatorLine : String := "# " ++ ⟨List.replicate 50 '='⟩ ++ "\n"

/-- The banner block written before a successfully re-read file's
content: separator, path, size, the function/class name lines when the
analysis has any, and the closing separator followed by a blank line.
(`analysis.get('functions')` is `None` for the error dictionary, so an
unparsable file gets neither line.) -/
def fileBanner (fi : FileInfo) : String :=
  separatorLine ++
  "# ФАЙЛ: " ++ fi.path ++ "\n" ++
  "# РАЗМЕР: " ++ toString fi.size ++ " байт\n" ++
  (match fi.analysis with
   | some (.ok a) =>
       (if a.functions.isEmpty then ""
        else "# ФУНКЦИИ: " ++
          String.intercalate ", " (a.functions.map FuncInfo.name) ++ "\n") ++
       (if a.classes.isEmpty then ""
        else "# КЛАССЫ: " ++
          String.intercalate ", " (a.classes.map ClassInfo.name) ++ "\n")
   | _ => "") ++
  separatorLine ++ "\n"

/-- The text one enumerated Python file contributes to the consolidated
output: a too-big placeholder, an inline read-error banner, or the
banner block followed by the verbatim content. -/
def consolidateFile (maxSize : Nat) (fi : FileInfo) : String :=
  if fi.size > maxSize then
    "# === " ++ fi.path ++ " === [ФАЙЛ СЛИШКОМ БОЛЬШОЙ: " ++
      toString fi.size ++ " байт]\n\n"
  else
    match fi.node.read with
    | .error e => "# === " ++ fi.path ++ " === [ОШИБКА ЧТЕНИЯ: " ++ e ++ "]\n\n"
    | .ok content => fileBanner fi ++ content ++ "\n\n"

/-- Everything of the consolidated output after the timestamp. -/
def consolidated_body (exclD : List String) (entries : List Entry)
    (maxSize : Nat) : String :=
  let pys := pythonFiles (collect_files exclD defaultExtensions [] entries)
  "\nФайлов: " ++ toString pys.length ++ "\n\nСТРУКТУРА:\n\"\"\"\n\n" ++
  String.join (pys.map (consolidateFile maxSize))

/-- Model of `ProjectCollector.create_consolidated_code`: the returned
consolidated string (also written verbatim to the output file). -/
def create_consolidated_code (now : String) (exclD : List String)
    (entries : List Entry) (maxSize : Nat) : String :=
  "\"\"\"\n=== ОБЪЕДИНЕННЫЙ КОД ПРОЕКТА ===\nДата: " ++ now ++
    consolidated_body exclD entries maxSize

/-! ### Spec-side line counting

`countBreaks` counts the line-break sequences of a text (a `"\r\n"` pair
is one break, exactly as `str.splitlines` treats it), and
`hasTrailingContent` tells whether the text is nonempty and does not end
with a line break. -/

def countBreaks : List Char → Nat
  | [] => 0
  | '\r' :: '\n' :: rest => 1 + countBreaks rest
  | c :: rest => (if isLineBreak c then 1 else 0) + countBreaks rest

def hasTrailingContent : List Char → Bool
  | [] => false
  | c :: rest => if rest.isEmpty then !isLineBreak c else hasTrailingContent rest

theorem countBreaks_fall (c : Char) (rest : List Char)
    (h : ∀ r, c = '\r' → rest = '\n' :: r → False) :
    countBreaks (c :: rest) = (if isLineBreak c then 1 else 0) + countBreaks rest := by
  rw [countBreaks.eq_def]
  split
  · simp_all
  · rename_i r heq
    rw [List.cons.injEq] at heq
    exact (h r heq.1 heq.2).elim
  · rename_i c' r heq
    injection heq with h1 h2
    subst h1; subst h2
    rfl

theorem splitlinesAux_break (acc : List Char) (c : Char) (rest : List Char)
    (h : ∀ r, c = '\r' → rest = '\n' :: r → False) (hb : isLineBreak c = true) :
    splitlinesAux acc (c :: rest) = acc.reverse :: splitlinesAux [] rest := by
  rw [splitlinesAux.eq_def]
  split
  · simp_all
  · rename_i r heq
    rw [List.cons.injEq] at heq
    exact (h r heq.1 heq.2).elim
  · rename_i c' r heq
    injection heq with h1 h2
    subst h1; subst h2
    rw [if_pos hb]

theorem splitlinesAux_nonbreak (acc : List Char) (c : Char) (rest : List Char)
    (h : ∀ r, c = '\r' → rest = '\n' :: r → False) (hb : ¬ isLineBreak c = true) :
    splitlinesAux acc (c :: rest) = splitlinesAux (c :: acc) rest := by
  rw [splitlinesAux.eq_def]
  split
  · simp_all
  · rename_i r heq
    rw [List.cons.injEq] at heq
    exact (h r heq.1 heq.2).elim
  · rename_i c' r heq
    injection heq with h1 h2
    subst h1; subst h2
    rw [if_neg hb]

theorem splitlinesAux_length (acc l : List Char) :
    (splitlinesAux acc l).length =
      countBreaks l + (if hasTrailingContent l then 1 else 0) +
        (if l.isEmpty && !acc.isEmpty then 1 else 0) := by
  induction acc, l using splitlinesAux.induct with
  | case1 acc hacc =>
      simp_all [splitlinesAux, countBreaks, hasTrailingContent]
  | case2 acc hacc =>
      simp_all [splitlinesAux, countBreaks, hasTrailingContent]
  | case3 acc rest ih =>
      rw [show splitlinesAux acc ('\r' :: '\n' :: rest)
            = acc.reverse :: splitlinesAux [] rest from rfl]
      rw [show countBreaks ('\r' :: '\n' :: rest) = 1 + countBreaks rest from rfl]
      cases rest with
      | nil => simp [hasTrailingContent, splitlinesAux, countBreaks, isLineBreak]
      | cons c2 r2 =>
          simp only [List.length_cons, ih]
          simp [hasTrailingContent, isLineBreak]
          omega
  | case4 acc c rest h hb ih =>
      rw [splitlinesAux_break acc c rest h hb, countBreaks_fall c rest h]
      cases rest with
      | nil =>
          simp [hasTrailingContent, splitlinesAux, countBreaks, hb]
      | cons c2 r2 =>
          simp only [List.length_cons, ih]
          simp [hasTrailingContent, hb]
          omega
  | case5 acc c rest h hb ih =>
      rw [splitlinesAux_nonbreak acc c rest h hb, countBreaks_fall c rest h]
      cases rest with
      | nil =>
          simp [hasTrailingContent, splitlinesAux, countBreaks, hb]
      | cons c2 r2 =>
          simp only [ih]
          simp [hasTrailingContent, hb]

/-- The line count `len(content.splitlines())` in closed form: the number
of line-break sequences, plus one exactly when the text is nonempty and
does not end with a line break. -/
theorem splitlines_length (content : String) :
    (splitlines content).length =
      countBreaks content.data +
        (if hasTrailingContent content.data then 1 else 0) := by
  rw [splitlines, splitlinesAux_length]
  simp

/-! ### Walk membership lemmas -/

theorem mem_walkList_self {l : List PyStmt} {s : PyStmt} (hs : s ∈ l) :
    s ∈ walkList l := by
  induction hs with
  | head rest =>
      rw [walkList]
      exact List.mem_append_left _ (List.mem_cons_self _ _)
  | tail b hmem ih =>
      rw [walkList]
      exact List.mem_append_right _ ih

theorem mem_walkList_children :
    ∀ (k : Nat) (l : List PyStmt), sizeOf l ≤ k →
      ∀ s ∈ walkList l, ∀ c ∈ children s, c ∈ walkList l := by
  intro k
  induction k with
  | zero =>
      intro l hl s hs c _
      cases l with
      | nil => rw [walkList] at hs; cases hs
      | cons a rest => simp at hl
  | succ k ih =>
      intro l hl s hs c hc
      cases l with
      | nil => rw [walkList] at hs; cases hs
      | cons a rest =>
          rw [walkList] at hs ⊢
          rcases List.mem_append.mp hs with h1 | h2
          · rcases List.mem_cons.mp h1 with rfl | h1'
            · exact List.mem_append_left _
                (List.mem_cons_of_mem _ (mem_walkList_self hc))
            · have hsz : sizeOf (children a) ≤ k := by
                have := sizeOf_children_lt a
                simp at hl; omega
              exact List.mem_append_left _
                (List.mem_cons_of_mem _ (ih (children a) hsz s h1' c hc))
          · have hsz : sizeOf rest ≤ k := by simp at hl; omega
            exact List.mem_append_right _ (ih rest hsz s h2 c hc)

/-! ### Example inputs used by the claim witnesses -/

/-- `from os import path, sep` parsed. -/
def osImportModule : PyModule :=
  ⟨none, [.impFrom (some "os") ["path", "sep"]]⟩

/-- A file holding exactly `from os import path, sep`. -/
def osImportFile : FileNode :=
  ⟨"ex.py", 24, .ok "from os import path, sep", .ok osImportModule⟩

/-- `from . import x` parsed: the `module` field is `None`. -/
def relImportFile : FileNode :=
  ⟨"rel.py", 16, .ok "from . import x", .ok ⟨none, [.impFrom none ["x"]]⟩⟩

/-- A one-statement file whose text ends with a newline. -/
def trailingNLFile : FileNode :=
  ⟨"t.py", 6, .ok "x = 1\n", .ok ⟨none, [.other []]⟩⟩

/-- A one-statement file with no trailing newline. -/
def noTrailingNLFile : FileNode :=
  ⟨"u.py", 5, .ok "x = 1", .ok ⟨none, [.other []]⟩⟩

/-- A class whose body defines one method. -/
def classWithMethodModule : PyModule :=
  ⟨none, [.classDef "C" none 1 [.funcDef "m" ["self"] none 2 []]]⟩

/-! ### C1 -/

/-- C1: every `from X import A, B` statement with a truthy (non-empty)
module name contributes exactly one import-identifier string, the module
name, a dot, and the names joined with `", "`; the analysis's import list
is exactly the concatenation of these per-node contributions over the
whole walk, and on the literal example `from os import path, sep` the
analysis holds the single string `"os.path, sep"`. -/
theorem from_import_single_joined_string :
    (∀ (content : String) (tree : PyModule),
      (analyzeTree content tree).imports =
        (walkList tree.body).flatMap importStrings)
    ∧ (∀ (m : String) (ns : List String), m ≠ "" →
        importStrings (.impFrom (some m) ns) =
          [m ++ "." ++ String.intercalate ", " ns])
    ∧ (∃ a, analyze_python_file osImportFile = .ok a ∧
        a.imports = ["os.path, sep"]) := by
  refine ⟨analyzeTree_imports, fun m ns hm => by simp [importStrings, hm], ?_⟩
  refine ⟨analyzeTree "from os import path, sep" osImportModule, by
    simp [analyze_python_file, osImportFile], ?_⟩
  rw [analyzeTree_imports]
  rw [osImportModule]
  simp only [walkList, children]
  simp only [List.flatMap_cons, List.flatMap_nil, List.append_nil]
  simp only [importStrings]
  decide

/-- Witness for C1 at the concrete example from the spec. -/
theorem from_import_single_joined_string_witness :
    ("os" : String) ≠ "" ∧
      importStrings (.impFrom (some "os") ["path", "sep"]) = ["os.path, sep"] := by
  refine ⟨by decide, ?_⟩
  rw [from_import_single_joined_string.2.1 "os" ["path", "sep"] (by decide)]
  rfl

/-! ### C10 -/

/-- C10: a relative from-import whose module field is absent (as in
`from . import x`) contributes no entry at all to the import list: its
per-node contribution is empty, and the literal example file analyses to
an empty import list. -/
theorem relative_import_contributes_nothing :
    (∀ (content : String) (tree : PyModule),
      (analyzeTree content tree).imports =
        (walkList tree.body).flatMap importStrings)
    ∧ (∀ ns : List String, importStrings (.impFrom none ns) = [])
    ∧ (∃ a, analyze_python_file relImportFile = .ok a ∧ a.imports = []) := by
  refine ⟨analyzeTree_imports, fun ns => by simp [importStrings], ?_⟩
  refine ⟨analyzeTree "from . import x" ⟨none, [.impFrom none ["x"]]⟩, by
    simp [analyze_python_file, relImportFile], ?_⟩
  rw [analyzeTree_imports]
  simp only [walkList, children]
  simp only [List.flatMap_cons, List.flatMap_nil, List.append_nil]
  simp [importStrings]

/-! ### C2 -/

/-- C2 counterexample: the file `"x = 1\n"` parses, has one line-break
character, and its recorded line count is `len(content.splitlines()) = 1`,
not `1 + 1 = 2` as the claim states. -/
theorem lines_ne_breaks_plus_one_on_trailing_newline :
    analyze_python_file trailingNLFile =
      .ok { imports := [], functions := [], classes := [],
            docstring := none, lines := 1 }
    ∧ countBreaks (String.data "x = 1\n") + 1 = 2
    ∧ (1 : Nat) ≠ 2 := by
  refine ⟨?_, by decide, by decide⟩
  show Except.ok (analyzeTree "x = 1\n" ⟨none, [.other []]⟩) = _
  have h1 : analyzeTree "x = 1\n" ⟨none, [.other []]⟩ =
      { imports := [], functions := [], classes := [],
        docstring := none, lines := 1 } := by
    rw [analyzeTree]
    simp only [walkList, children]
    simp only [List.cons_append, List.nil_append, List.foldl_cons,
      List.foldl_nil, visit]
    have : (splitlines "x = 1\n").length = 1 := by decide
    rw [this]
  rw [h1]

/-- C2 amended: for every file that reads and parses successfully, the
recorded line count equals the number of line-break sequences in the raw
text plus one when the text is nonempty and does not end with a line
break (so a last line with no trailing newline is still counted), and
with no extra increment when the text is empty or ends with a break. -/
theorem analysis_lines_eq_splitlines_count (f : FileNode) (content : String)
    (tree : PyModule) (hr : f.read = .ok content) (hp : f.parse = .ok tree) :
    ∃ a, analyze_python_file f = .ok a ∧
      a.lines = countBreaks content.data +
        (if hasTrailingContent content.data then 1 else 0) := by
  refine ⟨analyzeTree content tree, ?_, ?_⟩
  · simp [analyze_python_file, hr, hp]
  · rw [analyzeTree_lines, splitlines_length]

/-- Witness for the amended C2 at a file with no trailing newline. -/
theorem analysis_lines_eq_splitlines_count_witness :
    noTrailingNLFile.read = .ok "x = 1" ∧
      noTrailingNLFile.parse = .ok ⟨none, [.other []]⟩ ∧
      ∃ a, analyze_python_file noTrailingNLFile = .ok a ∧
        a.lines = countBreaks "x = 1".data +
          (if hasTrailingContent "x = 1".data then 1 else 0) := by
  exact ⟨rfl, rfl,
    analysis_lines_eq_splitlines_count noTrailingNLFile "x = 1"
      ⟨none, [.other []]⟩ rfl rfl⟩

/-! ### C4 -/

/-- C4: function definitions anywhere in the walked tree land in the flat
function list, and consequently every method name of a class whose
methods are defined directly in its body also appears among the names of
the flat function list. -/
theorem methods_also_in_flat_function_list (content : String) (tree : PyModule) :
    (∀ s ∈ walkList tree.body, ∀ name args doc line body,
      s = .funcDef name args doc line body →
        (⟨name, args, doc, line⟩ : FuncInfo) ∈ (analyzeTree content tree).functions)
    ∧ (∀ cls ∈ (analyzeTree content tree).classes, ∀ m ∈ cls.methods,
        m ∈ (analyzeTree content tree).functions.map FuncInfo.name) := by
  constructor
  · intro s hs name args doc line body hdef
    rw [analyzeTree_functions]
    exact List.mem_filterMap.mpr ⟨s, hs, by rw [hdef]; rfl⟩
  · intro cls hcls m hm
    rw [analyzeTree_classes] at hcls
    obtain ⟨s, hs, hentry⟩ := List.mem_filterMap.mp hcls
    match s, hentry with
    | .classDef n d li body, hentry =>
        rw [classEntry] at hentry
        injection hentry with hentry
        have hmeth : m ∈ methodNames body := by rw [← hentry] at hm; exact hm
        rw [methodNames] at hmeth
        obtain ⟨t, ht, hname⟩ := List.mem_filterMap.mp hmeth
        match t, hname with
        | .funcDef fn fargs fdoc fline fbody, hname =>
            have hbody : (PyStmt.funcDef fn fargs fdoc fline fbody) ∈
                children (PyStmt.classDef n d li body) := by
              rw [children]; exact ht
            have htw : (PyStmt.funcDef fn fargs fdoc fline fbody) ∈ walkList tree.body :=
              mem_walkList_children (sizeOf tree.body) tree.body le_rfl
                _ hs _ hbody
            have hfn : fn = m := by injection hname
            rw [analyzeTree_functions]
            refine List.mem_map.mpr ⟨⟨fn, fargs, fdoc, fline⟩, ?_, hfn⟩
            exact List.mem_filterMap.mpr ⟨_, htw, rfl⟩

/-- Witness for C4: the concrete class-with-method module. -/
theorem methods_also_in_flat_function_list_witness :
    ∃ cls ∈ (analyzeTree "src" classWithMethodModule).classes,
      "m" ∈ cls.methods ∧
      "m" ∈ (analyzeTree "src" classWithMethodModule).functions.map FuncInfo.name := by
  have hcls : (analyzeTree "src" classWithMethodModule).classes =
      [⟨"C", ["m"], none, 1⟩] := by
    rw [analyzeTree_classes, classWithMethodModule]
    simp only [walkList, children]
    simp [classEntry, funcEntry, methodNames]
  have hmem : (⟨"C", ["m"], none, 1⟩ : ClassInfo) ∈
      (analyzeTree "src" classWithMethodModule).classes := by
    rw [hcls]; exact List.mem_singleton.mpr rfl
  refine ⟨⟨"C", ["m"], none, 1⟩, hmem, by decide, ?_⟩
  exact (methods_also_in_flat_function_list "src" classWithMethodModule).2
    _ hmem "m" (by decide)

/-! ### C3 -/

/-- C3: any read or parse failure is caught and returned as the error
variant carrying the failure message (the function is total, so nothing
propagates to the caller), and a file whose analysis is the error
variant adds one to the enumerated-file total while leaving the line
total and the function/class/import aggregates unchanged. -/
theorem parse_error_recorded_and_isolated :
    (∀ (f : FileNode) (e : String), f.read = .error e →
      analyze_python_file f = .error e)
    ∧ (∀ (f : FileNode) (content e : String), f.read = .ok content →
        f.parse = .error e → analyze_python_file f = .error e)
    ∧ (∀ (files : List FileInfo) (fi : FileInfo) (e : String),
        fi.extension = ".py" → fi.analysis = some (.error e) →
        (files ++ [fi]).length = files.length + 1
        ∧ ((pythonFiles (files ++ [fi])).map linesOfInfo).sum =
            ((pythonFiles files).map linesOfInfo).sum
        ∧ allFunctions (files ++ [fi]) = allFunctions files
        ∧ allClasses (files ++ [fi]) = allClasses files
        ∧ allImportStrings (files ++ [fi]) = allImportStrings files) := by
  refine ⟨fun f e h => by simp [analyze_python_file, h],
    fun f content e h1 h2 => by simp [analyze_python_file, h1, h2], ?_⟩
  intro files fi e hext hana
  have hpy : pythonFiles (files ++ [fi]) = pythonFiles files ++ [fi] := by
    simp [pythonFiles, List.filter_append, hext]
  refine ⟨by simp, ?_, ?_, ?_, ?_⟩
  · rw [hpy]
    simp [linesOfInfo, hana]
  · rw [allFunctions, allFunctions, hpy]
    simp [hana]
  · rw [allClasses, allClasses, hpy]
    simp [hana]
  · rw [allImportStrings, allImportStrings, hpy]
    simp [hana]

/-- A file whose parse fails. -/
def badSyntaxFile : FileNode :=
  ⟨"b.py", 4, .ok "def", .error "invalid syntax (b.py, line 1)"⟩

/-- The `files_info` record built for `badSyntaxFile` at the root. -/
def badSyntaxInfo : FileInfo :=
  ⟨"b.py", ["b.py"], 4, ".py",
    some (.error "invalid syntax (b.py, line 1)"), badSyntaxFile⟩

/-- Witness for C3 at a concrete unparsable file. -/
theorem parse_error_recorded_and_isolated_witness :
    (badSyntaxFile.read = .ok "def" ∧
      badSyntaxFile.parse = .error "invalid syntax (b.py, line 1)" ∧
      analyze_python_file badSyntaxFile = .error "invalid syntax (b.py, line 1)")
    ∧ (badSyntaxInfo.extension = ".py" ∧
      badSyntaxInfo.analysis = some (.error "invalid syntax (b.py, line 1)") ∧
      allFunctions ([] ++ [badSyntaxInfo]) = allFunctions []
      ∧ ((pythonFiles ([] ++ [badSyntaxInfo])).map linesOfInfo).sum =
          ((pythonFiles []).map linesOfInfo).sum) := by
  have h1 := parse_error_recorded_and_isolated.2.1 badSyntaxFile "def"
    "invalid syntax (b.py, line 1)" rfl rfl
  have h2 := parse_error_recorded_and_isolated.2.2 [] badSyntaxInfo
    "invalid syntax (b.py, line 1)" rfl rfl
  exact ⟨⟨rfl, rfl, h1⟩, rfl, rfl, h2.2.2.1, h2.2.1⟩

/-! ### C5 -/

/-- C5: enumeration is, up to traversal-order permutation, exactly one
record per file occurrence whose directory path contains no excluded
name and whose extension is in the allow-list; a file occurrence below
an excluded directory name produces no record at all. -/
theorem collect_files_exactly_included (excl exts : List String)
    (entries : List Entry) :
    List.Perm (collect_files excl exts [] entries)
      ((allFiles entries).filterMap (recordOf excl exts []))
    ∧ (∀ pf : List String × FileNode, (∃ d ∈ pf.1, d ∈ excl) →
        recordOf excl exts [] pf = none) := by
  refine ⟨collect_files_key excl exts (sizeOf entries) [] entries le_rfl, ?_⟩
  rintro ⟨dirs, f⟩ ⟨d, hd, hdx⟩
  rw [recordOf, if_neg]
  rintro ⟨hall, _⟩
  exact hall d hd hdx

/-- Witness for C5: a file below the excluded directory name produces no
record. -/
theorem collect_files_exactly_included_witness :
    (∃ d ∈ (["skip"] : List String), d ∈ (["skip"] : List String)) ∧
      recordOf ["skip"] defaultExtensions [] (["skip"], osImportFile) = none := by
  refine ⟨⟨"skip", by decide, by decide⟩, ?_⟩
  exact (collect_files_exactly_included ["skip"] defaultExtensions []).2
    (["skip"], osImportFile) ⟨"skip", by decide, by decide⟩

/-! ### The comparison used for sorting is a total preorder -/

theorem charListLe_cons_iff (x y : Char) (xs ys : List Char) :
    charListLe (x :: xs) (y :: ys) = true ↔
      (x.toNat < y.toNat ∨ (x.toNat = y.toNat ∧ charListLe xs ys = true)) := by
  by_cases h1 : x.toNat < y.toNat
  · rw [charListLe, if_pos h1]
    simp [h1]
  · by_cases h2 : y.toNat < x.toNat
    · rw [charListLe, if_neg h1, if_pos h2]
      constructor
      · intro h; cases h
      · intro h
        rcases h with h | ⟨heq, _⟩ <;> omega
    · have heq : x.toNat = y.toNat := by omega
      rw [charListLe, if_neg h1, if_neg h2]
      simp [heq, h1]

theorem charListLe_total : ∀ (a b : List Char),
    (charListLe a b || charListLe b a) = true := by
  intro a
  induction a with
  | nil => intro b; simp [charListLe]
  | cons x xs ih =>
      intro b
      cases b with
      | nil => simp [charListLe]
      | cons y ys =>
          by_cases h1 : x.toNat < y.toNat
          · simp [charListLe, h1]
          · by_cases h2 : y.toNat < x.toNat
            · simp [charListLe, h1, h2]
            · have heq : x.toNat = y.toNat := by omega
              simp only [charListLe, h1, h2, if_neg, heq.symm,
                lt_irrefl, not_false_iff]
              exact ih ys

theorem charListLe_trans : ∀ (a b c : List Char),
    charListLe a b = true → charListLe b c = true → charListLe a c = true := by
  intro a
  induction a with
  | nil => intro b c _ _; simp [charListLe]
  | cons x xs ih =>
      intro b c hab hbc
      cases b with
      | nil => simp [charListLe] at hab
      | cons y ys =>
          cases c with
          | nil => simp [charListLe] at hbc
          | cons z zs =>
              rw [charListLe_cons_iff] at hab hbc ⊢
              rcases hab with h1 | ⟨h1, h1'⟩
              · rcases hbc with h2 | ⟨h2, _⟩
                · exact Or.inl (by omega)
                · exact Or.inl (by omega)
              · rcases hbc with h2 | ⟨h2, h2'⟩
                · exact Or.inl (by omega)
                · exact Or.inr ⟨by omega, ih ys zs h1' h2'⟩

theorem pyStrLe_total (a b : String) : (pyStrLe a b || pyStrLe b a) = true :=
  charListLe_total a.data b.data

theorem pyStrLe_trans (a b c : String) (h1 : pyStrLe a b = true)
    (h2 : pyStrLe b c = true) : pyStrLe a c = true :=
  charListLe_trans a.data b.data c.data h1 h2

/-! ### C6 -/

/-- C6: the classes, functions and imports sections are omitted (empty
string) exactly when they have zero items; a non-empty functions section
renders exactly the first 20 entries of the stable name-sort of
`all_functions` — 20 of them whenever more than 20 functions exist — and
a non-empty imports section renders the first 15 of the sorted distinct
imports, which is never more than 15 lines; the name-sort really is a
sorted permutation. -/
theorem sections_omitted_and_capped :
    (classesSection [] = "")
    ∧ (functionsSection [] = "")
    ∧ (∀ imps : List String, imps.eraseDups = [] → importsSection imps = "")
    ∧ (∀ fns : List ReportFunc, fns ≠ [] →
        functionsSection fns = "## Основные функции\n" ++
          String.join (((sortFuncs fns).take 20).map funcItem) ++ "\n")
    ∧ (∀ fns : List ReportFunc, 20 < fns.length →
        ((sortFuncs fns).take 20).length = 20)
    ∧ (∀ imps : List String, imps.eraseDups ≠ [] →
        importsSection imps = "## Основные зависимости\n" ++
          String.join (((sortedImports imps).take 15).map
            fun i => "- " ++ i ++ "\n") ++ "\n")
    ∧ (∀ imps : List String, ((sortedImports imps).take 15).length ≤ 15)
    ∧ (∀ fns : List ReportFunc,
        List.Pairwise (fun a b => pyStrLe a.info.name b.info.name = true)
          (sortFuncs fns)
        ∧ List.Perm (sortFuncs fns) fns) := by
  refine ⟨by simp [classesSection], by simp [functionsSection],
    fun imps h => by simp [importsSection, h],
    fun fns h => by simp [functionsSection, h],
    fun fns h => ?_,
    fun imps h => by simp [importsSection, h],
    fun imps => ?_,
    fun fns => ⟨?_, ?_⟩⟩
  · rw [List.length_take, sortFuncs, List.length_mergeSort]
    omega
  · rw [List.length_take]
    omega
  · rw [sortFuncs]
    exact @List.sorted_mergeSort _
      (fun a b : ReportFunc => pyStrLe a.info.name b.info.name)
      (fun a b c hab hbc => pyStrLe_trans _ _ _ hab hbc)
      (fun a b => pyStrLe_total _ _) fns
  · rw [sortFuncs]
    exact List.mergeSort_perm fns _

/-- A list of 21 functions with distinct names. -/
def manyFuncs : List ReportFunc :=
  (List.range 21).map fun i => ⟨⟨"f" ++ toString i, [], none, i⟩, "a.py"⟩

/-- Witness for C6: with 21 functions the section keeps exactly 20, and
an empty import set yields the empty section. -/
theorem sections_omitted_and_capped_witness :
    (20 < manyFuncs.length ∧ ((sortFuncs manyFuncs).take 20).length = 20)
    ∧ (([] : List String).eraseDups = [] ∧ importsSection [] = "") := by
  constructor
  · have hlen : 20 < manyFuncs.length := by
      rw [manyFuncs, List.length_map, List.length_range]
      omega
    exact ⟨hlen, sections_omitted_and_capped.2.2.2.2.1 manyFuncs hlen⟩
  · exact ⟨rfl, sections_omitted_and_capped.2.2.1 [] rfl⟩

/-! ### C7 -/

/-- C7: a file strictly above the size threshold contributes exactly the
too-big placeholder banner (none of its content); a file at or below the
threshold whose re-read succeeds contributes the banner followed by its
exact verbatim content; a failed re-read contributes exactly the inline
error banner; and the whole consolidation is the header plus the
concatenation of every enumerated Python file's contribution, so no
per-file failure aborts the run. -/
theorem consolidation_per_file_cases :
    (∀ (maxSize : Nat) (fi : FileInfo), maxSize < fi.size →
      consolidateFile maxSize fi =
        "# === " ++ fi.path ++ " === [ФАЙЛ СЛИШКОМ БОЛЬШОЙ: " ++
          toString fi.size ++ " байт]\n\n")
    ∧ (∀ (maxSize : Nat) (fi : FileInfo) (content : String),
        fi.size ≤ maxSize → fi.node.read = .ok content →
        consolidateFile maxSize fi = fileBanner fi ++ content ++ "\n\n")
    ∧ (∀ (maxSize : Nat) (fi : FileInfo) (e : String),
        fi.size ≤ maxSize → fi.node.read = .error e →
        consolidateFile maxSize fi =
          "# === " ++ fi.path ++ " === [ОШИБКА ЧТЕНИЯ: " ++ e ++ "]\n\n")
    ∧ (∀ (now : String) (exclD : List String) (entries : List Entry)
        (maxSize : Nat),
        create_consolidated_code now exclD entries maxSize =
          "\"\"\"\n=== ОБЪЕДИНЕННЫЙ КОД ПРОЕКТА ===\nДата: " ++ now ++
          "\nФайлов: " ++
          toString (pythonFiles
            (collect_files exclD defaultExtensions [] entries)).length ++
          "\n\nСТРУКТУРА:\n\"\"\"\n\n" ++
          String.join ((pythonFiles
            (collect_files exclD defaultExtensions [] entries)).map
              (consolidateFile maxSize))) := by
  refine ⟨fun maxSize fi h => by simp [consolidateFile, h], ?_, ?_,
    fun now exclD entries maxSize => by
      simp [create_consolidated_code, consolidated_body, String.append_assoc]⟩
  · intro maxSize fi content hle hread
    rw [consolidateFile, if_neg (by omega), hread]
  · intro maxSize fi e hle hread
    rw [consolidateFile, if_neg (by omega), hread]

/-- A 60000-byte file, above the default 50000-byte threshold. -/
def bigInfo : FileInfo :=
  ⟨"big.py", ["big.py"], 60000, ".py", some (.error "skipped"),
    ⟨"big.py", 60000, .ok "pass", .ok ⟨none, [.other []]⟩⟩⟩

/-- The record built for `trailingNLFile` at the root. -/
def trailingNLInfo : FileInfo :=
  ⟨"t.py", ["t.py"], 6, ".py", some (analyze_python_file trailingNLFile),
    trailingNLFile⟩

/-- A small file whose re-read fails. -/
def unreadableInfo : FileInfo :=
  ⟨"gone.py", ["gone.py"], 10, ".py", some (.error "gone"),
    ⟨"gone.py", 10, .error "[Errno 2] No such file", .error "gone"⟩⟩

/-- Witness for C7: the three per-file cases at concrete files with the
default 50000-byte threshold. -/
theorem consolidation_per_file_cases_witness :
    (50000 < bigInfo.size ∧
      consolidateFile 50000 bigInfo =
        "# === big.py === [ФАЙЛ СЛИШКОМ БОЛЬШОЙ: 60000 байт]\n\n")
    ∧ (trailingNLInfo.size ≤ 50000 ∧
        trailingNLInfo.node.read = .ok "x = 1\n" ∧
        consolidateFile 50000 trailingNLInfo =
          fileBanner trailingNLInfo ++ "x = 1\n" ++ "\n\n")
    ∧ (unreadableInfo.size ≤ 50000 ∧
        unreadableInfo.node.read = .error "[Errno 2] No such file" ∧
        consolidateFile 50000 unreadableInfo =
          "# === gone.py === [ОШИБКА ЧТЕНИЯ: [Errno 2] No such file]\n\n") := by
  refine ⟨⟨by decide, ?_⟩, ⟨by decide, rfl, ?_⟩, ⟨by decide, rfl, ?_⟩⟩
  · have h := consolidation_per_file_cases.1 50000 bigInfo (by decide)
    rw [h]
    rfl
  · exact consolidation_per_file_cases.2.1 50000 trailingNLInfo "x = 1\n"
      (by decide) rfl
  · have h := consolidation_per_file_cases.2.2.1 50000 unreadableInfo
      "[Errno 2] No such file" (by decide) rfl
    rw [h]
    rfl

/-! ### C8 -/

/-- Naive substring test (used only to state counterexamples). -/
def containsSub (needle : List Char) : List Char → Bool
  | [] => needle.isEmpty
  | c :: rest => needle.isPrefixOf (c :: rest) || containsSub needle rest

/-- A class whose docstring is present but empty. -/
def emptyDocClass : ReportClass := ⟨⟨"C", [], some "", 1⟩, "f.py"⟩

/-- C8 counterexample: a class docstring that is present but empty is not
rendered at all — the claim predicts the line `"  - ...\n"` (first 100
characters of `""` plus the ellipsis), but the rendered item is only the
name banner and contains no such line. -/
theorem present_empty_docstring_not_rendered :
    emptyDocClass.info.docstring = some "" ∧
    classItem emptyDocClass = "- **C** (f.py)\n" ∧
    ("  - " ++ pySlice100 "" ++ "...\n") = "  - ...\n" ∧
    containsSub ("  - ...\n").data (classItem emptyDocClass).data = false := by
  refine ⟨rfl, ?_, by decide, ?_⟩
  · rw [classItem]
    rfl
  · rw [show classItem emptyDocClass = "- **C** (f.py)\n" from by rw [classItem]; rfl]
    decide

/-- C8 amended: every docstring that is present and non-empty is rendered
as its first 100 characters with the ellipsis appended unconditionally —
also when it is shorter than 100 characters, in which case the slice is
the whole docstring; a docstring that is absent or empty is not
rendered. -/
theorem docstring_truncated_with_unconditional_ellipsis :
    (∀ (c : ReportClass) (d : String), c.info.docstring = some d → d ≠ "" →
      classItem c = "- **" ++ c.info.name ++ "** (" ++ c.file ++ ")\n" ++
        ("  - " ++ pySlice100 d ++ "...\n") ++
        (if c.info.methods.isEmpty then ""
         else "  - Методы: " ++ String.intercalate ", " c.info.methods ++ "\n"))
    ∧ (∀ (f : ReportFunc) (d : String), f.info.docstring = some d → d ≠ "" →
        funcItem f = "- **" ++ f.info.name ++ "()** (" ++ f.file ++ ")\n" ++
          ("  - " ++ pySlice100 d ++ "...\n") ++
          (if f.info.args.isEmpty then ""
           else "  - Аргументы: " ++ String.intercalate ", " f.info.args ++ "\n"))
    ∧ (∀ d : String, d.data.length ≤ 100 → pySlice100 d = d) := by
  refine ⟨?_, ?_, ?_⟩
  · intro c d hd hne
    rw [classItem, hd]
    simp [hne, String.append_assoc]
  · intro f d hd hne
    rw [funcItem, hd]
    simp [hne, String.append_assoc]
  · intro d hlen
    rw [pySlice100, List.take_of_length_le hlen]

/-- A class with a short docstring. -/
def shortDocClass : ReportClass := ⟨⟨"D", ["m"], some "Short doc.", 3⟩, "g.py"⟩

/-- Witness for the amended C8: a 10-character docstring is rendered
whole, with the ellipsis still appended. -/
theorem docstring_truncated_witness :
    shortDocClass.info.docstring = some "Short doc." ∧
    ("Short doc." : String) ≠ "" ∧
    ("Short doc." : String).data.length ≤ 100 ∧
    pySlice100 "Short doc." = "Short doc." ∧
    classItem shortDocClass =
      "- **D** (g.py)\n" ++ ("  - " ++ pySlice100 "Short doc." ++ "...\n") ++
        "  - Методы: m\n" := by
  refine ⟨rfl, by decide, by decide, ?_, ?_⟩
  · exact docstring_truncated_with_unconditional_ellipsis.2.2 "Short doc."
      (by decide)
  · have h := docstring_truncated_with_unconditional_ellipsis.1 shortDocClass
      "Short doc." rfl (by decide)
    rw [h]
    rfl

/-! ### C9 -/

/-- C9: for a fixed file-system snapshot the report and the consolidated
output are each a fixed prefix, the timestamp, and a fixed suffix — the
prefix and suffix depend only on the snapshot and configuration, so two
runs over an unchanged tree produce byte-identical outputs except for
the embedded timestamp. -/
theorem outputs_fixed_except_timestamp (rootName : String)
    (exclD exclF : List String) (entries : List Entry) (maxSize : Nat) :
    ∃ (p₁ s₁ p₂ s₂ : String),
      (∀ now, generate_summary_report now rootName exclD exclF entries =
        p₁ ++ now ++ s₁)
      ∧ (∀ now, create_consolidated_code now exclD entries maxSize =
        p₂ ++ now ++ s₂) := by
  exact ⟨"# Отчет по проекту\nДата генерации: ",
    report_body rootName exclD exclF entries,
    "\"\"\"\n=== ОБЪЕДИНЕННЫЙ КОД ПРОЕКТА ===\nДата: ",
    consolidated_body exclD entries maxSize,
    fun now => by rw [generate_summary_report, String.append_assoc],
    fun now => by rw [create_consolidated_code, String.append_assoc]⟩

end Uniter
